import Mathlib

/-!
Verification of the machop linker's symbol resolution engine and
text-stub (tbd) dylib descriptor model, shallowly embedded from the
Rust source (`src/main.rs`, `src/tbd.rs`, `src/linker_args.rs`).
External collaborators (the goblin object parser, the
text_stub_library YAML parser, the filesystem) are abstracted as
inputs: the embedding starts from the data those collaborators hand
to the code under verification.
-/

/-- Embeds `linker_args.rs` `enum Architecture`: the single supported
target CPU. -/
inductive Architecture where
  | ARM64
deriving DecidableEq

/-- Embeds the `Display` impl for `Architecture` in `linker_args.rs`:
`ARM64` renders as `"arm64"`. -/
def Architecture.toString : Architecture → String
  | .ARM64 => "arm64"

/-- Embeds Rust `str::starts_with(pat)`: the pattern is a prefix of the
string, byte-for-byte (modelled character-for-character). -/
def rust_starts_with (s pat : String) : Bool :=
  pat.data.isPrefixOf s.data

/-- Embeds `match_arch` from `tbd.rs`: a target triple matches the
architecture iff it equals the architecture's canonical name or starts
with that name followed by `"-"`. -/
def match_arch (arch : Architecture) (triple : String) : Bool :=
  let a := arch.toString
  a == triple || rust_starts_with triple (a ++ "-")

theorem isPrefixOf_iff_exists (l₁ l₂ : List Char) :
    l₁.isPrefixOf l₂ = true ↔ ∃ t, l₂ = l₁ ++ t := by
  induction l₁ generalizing l₂ with
  | nil =>
    simp [List.isPrefixOf]
  | cons a as ih =>
    cases l₂ with
    | nil =>
      simp [List.isPrefixOf]
    | cons b bs =>
      simp only [List.isPrefixOf, Bool.and_eq_true, beq_iff_eq, ih,
        List.cons_append, List.cons.injEq]
      constructor
      · rintro ⟨hab, t, ht⟩
        exact ⟨t, hab.symm, ht⟩
      · rintro ⟨t, hab, ht⟩
        exact ⟨hab.symm, t, ht⟩

/-- Embeds the two bits of the goblin `Nlist` symbol entry that the
symbol table builder in `main.rs` consumes: the results of
`nlist.is_weak()` and `nlist.is_undefined()`. -/
structure Nlist where
  is_weak : Bool
  is_undefined : Bool
deriving DecidableEq

/-- The resolution state of `main`: `symbols` embeds the
`HashMap<String, Symbol>` (as a map from name to the stored symbol's
nlist bits) and `undefined` embeds the `HashSet<String>` of undefined
names. -/
structure SymTabState where
  symbols : String → Option Nlist
  undefined : String → Bool

/-- The empty maps with which `main` starts the build pass. -/
def initState : SymTabState :=
  ⟨fun _ => none, fun _ => false⟩

/-- Embeds the per-symbol body of the build loops in `main.rs`
(lines 271–301, duplicated verbatim for unowned objects at 305–333):
an undefined reference is inserted into the undefined set
unconditionally and processing continues; a definition is stored when
the name is new (removing it from the undefined set), replaces a
stored weak entry when the new one is strong (removing the name from
the undefined set), and is otherwise discarded with a log message. -/
def processSymbol (st : SymTabState) (name : String) (nl : Nlist) : SymTabState :=
  if nl.is_undefined then
    { st with undefined := fun n => if n = name then true else st.undefined n }
  else
    match st.symbols name with
    | some existing_symbol =>
      if existing_symbol.is_weak && !nl.is_weak then
        { symbols := fun n => if n = name then some nl else st.symbols n,
          undefined := fun n => if n = name then false else st.undefined n }
      else
        st
    | none =>
      { symbols := fun n => if n = name then some nl else st.symbols n,
        undefined := fun n => if n = name then false else st.undefined n }

/-- Folding a symbol stream through the build loop, in stream order. -/
def processSymbols (st : SymTabState) (syms : List (String × Nlist)) : SymTabState :=
  syms.foldl (fun acc p => processSymbol acc p.1 p.2) st

/-- Claim C1: a strong definition always displaces a previously stored
weak one (weak-then-strong and strong-then-weak both converge to the
stored strong definition); a second strong definition of a strongly
defined name is discarded, keeping the first-seen entry; and when both
the stored and the new definition are weak the first-seen entry is
kept. -/
theorem symbol_table_override (name : String) (w s e : Nlist) (st : SymTabState)
    (hw : w.is_weak = true) (hwu : w.is_undefined = false)
    (hs : s.is_weak = false) (hsu : s.is_undefined = false) :
    (processSymbols initState [(name, w), (name, s)]).symbols name = some s
    ∧ (processSymbols initState [(name, s), (name, w)]).symbols name = some s
    ∧ (st.symbols name = some e → e.is_weak = true →
        (processSymbol st name s).symbols name = some s)
    ∧ (st.symbols name = some e → e.is_weak = false →
        (processSymbol st name s).symbols name = some e)
    ∧ (st.symbols name = some e → e.is_weak = true →
        (processSymbol st name w).symbols name = some e) := by
  refine ⟨?_, ?_, ?_, ?_, ?_⟩
  · simp [processSymbols, processSymbol, initState, hw, hwu, hs, hsu]
  · simp [processSymbols, processSymbol, initState, hw, hwu, hs, hsu]
  · intro hst he
    simp [processSymbol, hst, he, hs, hsu]
  · intro hst he
    simp [processSymbol, hst, he, hs, hsu]
  · intro hst he
    simp [processSymbol, hst, he, hw, hwu]

/-- Witness for C1 at name `"_x"`, weak entry `⟨true, false⟩`, strong
entry `⟨false, false⟩`, from the empty state. -/
theorem symbol_table_override_witness :
    (Nlist.mk true false).is_weak = true
    ∧ ((processSymbols initState [("_x", Nlist.mk true false), ("_x", Nlist.mk false false)]).symbols "_x"
        = some (Nlist.mk false false)
      ∧ (processSymbols initState [("_x", Nlist.mk false false), ("_x", Nlist.mk true false)]).symbols "_x"
        = some (Nlist.mk false false)
      ∧ (initState.symbols "_x" = some (Nlist.mk true false) → (Nlist.mk true false).is_weak = true →
          (processSymbol initState "_x" (Nlist.mk false false)).symbols "_x" = some (Nlist.mk false false))
      ∧ (initState.symbols "_x" = some (Nlist.mk true false) → (Nlist.mk true false).is_weak = false →
          (processSymbol initState "_x" (Nlist.mk false false)).symbols "_x" = some (Nlist.mk true false))
      ∧ (initState.symbols "_x" = some (Nlist.mk true false) → (Nlist.mk true false).is_weak = true →
          (processSymbol initState "_x" (Nlist.mk true false)).symbols "_x" = some (Nlist.mk true false))) :=
  ⟨by decide,
   symbol_table_override "_x" (Nlist.mk true false) (Nlist.mk false false)
     (Nlist.mk true false) initState rfl rfl rfl rfl⟩

/-- Claim C2 (code bug): an undefined reference processed after a
definition of the same name is still inserted into the undefined set
— the insertion at `main.rs:272` is unconditional, so the name ends
the build pass both defined in the table and present in the undefined
set, where the spec says a name that is both defined and referenced is
absent from the UndefinedSet. -/
theorem undefined_ref_after_definition_kept :
    (processSymbols initState [("_y", Nlist.mk false false), ("_y", Nlist.mk false true)]).symbols "_y"
      = some (Nlist.mk false false)
    ∧ (processSymbols initState [("_y", Nlist.mk false false), ("_y", Nlist.mk false true)]).undefined "_y"
      = true := by
  constructor
  · simp [processSymbols, processSymbol, initState]
  · simp [processSymbols, processSymbol, initState]

/-- Embeds `tbd.rs` `enum Error` (the `ParseError` case arises only
inside the external YAML parser, which is abstracted away here). -/
inductive TbdError where
  | ParseError (msg : String)
  | NoValidDocument
deriving DecidableEq

/-- Embeds `tbd.rs` `struct TbdDylib`. -/
structure TbdDylib where
  install_name : String
  reexported_libraries : List String
  exports : List String
  weak_exports : List String
deriving DecidableEq

/-- Embeds a `text_stub_library` v4 export group (`exports[]` /
`re-exports[]` entry): the three fields `tbd.rs` reads. -/
structure TbdExportGroup where
  targets : List String
  symbols : List String
  weak_symbols : List String
deriving DecidableEq

/-- Embeds a `text_stub_library` v4 `reexported-libraries[]` entry:
the two fields `tbd.rs` reads. -/
structure TbdReexportGroup where
  targets : List String
  libraries : List String
deriving DecidableEq

/-- Embeds the fields of a `text_stub_library` v4 record that
`TbdDylib::parse_one` reads. -/
structure TbdV4Record where
  install_name : String
  targets : List String
  exports : List TbdExportGroup
  reexported_libraries : List TbdReexportGroup
  re_exports : List TbdExportGroup
deriving DecidableEq

/-- Embeds `text_stub_library::TbdVersionedRecord`. The V1/V2/V3
payloads are omitted because `parse_one` discards those records
without inspecting them. -/
inductive TbdVersionedRecord where
  | V1
  | V2
  | V3
  | V4 (v4 : TbdV4Record)
deriving DecidableEq

/-- The accumulation step of the two export loops in `parse_one`
(`tbd.rs:122-141`): a group whose targets match the architecture
appends its symbols and weak symbols to the running accumulators. -/
def collectGroup (arch : Architecture) (acc : List String × List String)
    (g : TbdExportGroup) : List String × List String :=
  if g.targets.any (fun t => match_arch arch t) then
    (acc.1 ++ g.symbols, acc.2 ++ g.weak_symbols)
  else
    acc

/-- Embeds `TbdDylib::parse_one` (`tbd.rs:89-151`): V1/V2/V3 records
yield nothing; a V4 record yields nothing unless some target triple
matches the architecture, and otherwise yields a descriptor collecting
the architecture-matching reexported library identities and the
symbols/weak symbols of every architecture-matching `exports` group
followed by every architecture-matching `re-exports` group. In the
source this returns `Result<Option<Self>, Error>` but no code path
produces `Err`, so the embedding returns `Option`. -/
def parse_one (arch : Architecture) (tbd : TbdVersionedRecord) : Option TbdDylib :=
  match tbd with
  | .V1 | .V2 | .V3 => none
  | .V4 v4 =>
    if v4.targets.any (fun t => match_arch arch t) then
      let reexported_libraries := v4.reexported_libraries.foldl
        (fun acc r =>
          if r.targets.any (fun t => match_arch arch t) then acc ++ r.libraries else acc)
        []
      let acc1 := v4.exports.foldl (collectGroup arch) ([], [])
      let acc2 := v4.re_exports.foldl (collectGroup arch) acc1
      some ⟨v4.install_name, reexported_libraries, acc2.1, acc2.2⟩
    else
      none

/-- Embeds the children index built in `TbdDylib::parse`
(`tbd.rs:65-66`): a `HashMap` collected from an iterator keeps the
last binding for a duplicated install name, so lookup finds the last
matching child. -/
def lookupChild (children : List TbdDylib) (lib : String) : Option TbdDylib :=
  children.reverse.find? (fun c => c.install_name == lib)

/-- The body of the `visit` closure in `TbdDylib::parse`
(`tbd.rs:70-81`): each reexported identity of the main record either
contributes the found child's exports and weak exports to the
accumulators, or is itself accumulated as still unresolved. -/
def visitStep (children : List TbdDylib)
    (acc : List String × List String × List String) (lib : String) :
    List String × List String × List String :=
  match lookupChild children lib with
  | some child => (acc.1 ++ child.exports, acc.2.1 ++ child.weak_exports, acc.2.2)
  | none => (acc.1, acc.2.1, acc.2.2 ++ [lib])

/-- Embeds `TbdDylib::parse` (`tbd.rs:49-87`) from the point where the
external YAML parser has produced the document's versioned records:
filter the records through `parse_one`, fail with `NoValidDocument`
when none survive, take the first survivor as the main descriptor,
index the rest by install name, and run the one-hop reexport visit,
appending the accumulated exports, weak exports and still-unresolved
reexported identities onto the main descriptor's respective lists. -/
def TbdDylib.parse (arch : Architecture) (records : List TbdVersionedRecord) :
    Except TbdError TbdDylib :=
  match records.filterMap (parse_one arch) with
  | [] => .error .NoValidDocument
  | main :: rest =>
    let acc := main.reexported_libraries.foldl (visitStep rest) ([], [], [])
    .ok { main with
          exports := main.exports ++ acc.1,
          weak_exports := main.weak_exports ++ acc.2.1,
          reexported_libraries := main.reexported_libraries ++ acc.2.2 }

/-- A main v4 record whose only reexported identity is `"A"`. -/
def mainRec : TbdV4Record :=
  ⟨"MAIN", ["arm64"], [⟨["arm64"], ["_m"], []⟩], [⟨["arm64"], ["A"]⟩], []⟩

/-- A child record with identity `"A"`, itself reexporting `"B"`. -/
def childA : TbdV4Record :=
  ⟨"A", ["arm64"], [⟨["arm64"], ["_a"], ["_wa"]⟩], [⟨["arm64"], ["B"]⟩], []⟩

/-- A grandchild record with identity `"B"`. -/
def childB : TbdV4Record :=
  ⟨"B", ["arm64"], [⟨["arm64"], ["_b"], []⟩], [], []⟩

/-- Claim C3 (code bug): with the reexported identity `"A"` present as
a child, `parse` does append the child's exports `["_a"]` and weak
exports `["_wa"]` onto the main descriptor, and does not inline the
grandchild's `"_b"` (two hops), but the resulting
`reexported_libraries` list is still `["A"]` — `tbd.rs:85` appends the
unresolved identities to the original list instead of replacing it, so
a resolved identity is never removed and the list is not empty even
though every reexported identity is present as a child. -/
theorem reexport_list_not_cleared :
    TbdDylib.parse .ARM64 [.V4 mainRec, .V4 childA, .V4 childB]
      = .ok ⟨"MAIN", ["A"], ["_m", "_a"], ["_wa"]⟩ := by
  rfl

/-- Claim C9: `TbdDylib::parse` discards every record whose schema
version predates version 4 (V1, V2 and V3 records contribute
nothing), a V4 record survives exactly when some target triple matches
the architecture, and `parse` returns the `NoValidDocument` error
exactly when no record survives the version and architecture
filters. -/
theorem tbd_version_filter_spec (arch : Architecture) (records : List TbdVersionedRecord) :
    (parse_one arch .V1 = none ∧ parse_one arch .V2 = none ∧ parse_one arch .V3 = none)
    ∧ (∀ v4 : TbdV4Record, parse_one arch (.V4 v4) = none ↔
        v4.targets.any (fun t => match_arch arch t) = false)
    ∧ (TbdDylib.parse arch records = .error .NoValidDocument ↔
        ∀ r ∈ records, parse_one arch r = none) := by
  refine ⟨⟨rfl, rfl, rfl⟩, fun v4 => ?_, ?_⟩
  · cases hc : v4.targets.any (fun t => match_arch arch t) with
    | true => simp [parse_one, hc]
    | false => simp [parse_one, hc]
  · rw [← List.filterMap_eq_nil_iff]
    unfold TbdDylib.parse
    cases hfm : records.filterMap (parse_one arch) with
    | nil => simp
    | cons main rest => simp

/-- The body of the export loop of the dylib resolver in `main.rs`
(lines 339–344): if the export's name is in the undefined set, remove
it; otherwise leave the set alone. -/
def removeIfContains (u : String → Bool) (ex : String) : String → Bool :=
  if u ex then (fun n => if n = ex then false else u n) else u

/-- Embeds the `Dylib::Tbd` arm of the dylib loop in `main.rs`
(lines 335–347): walk the descriptor's `exports` (and only `exports`;
`weak_exports` is never read) removing each from the undefined set. -/
def resolve_tbd (undef : String → Bool) (tbd : TbdDylib) : String → Bool :=
  tbd.exports.foldl removeIfContains undef

/-- The full dylib resolution pass over the tbd descriptors, in input
order. -/
def resolve_dylibs (undef : String → Bool) (tbds : List TbdDylib) : String → Bool :=
  tbds.foldl resolve_tbd undef

theorem removeIfContains_apply (u : String → Bool) (ex n : String) :
    removeIfContains u ex n = (u n && !(n == ex)) := by
  cases hx : u ex with
  | true =>
    by_cases hn : n = ex
    · subst hn
      simp [removeIfContains, hx]
    · simp [removeIfContains, hx, hn]
  | false =>
    by_cases hn : n = ex
    · subst hn
      simp [removeIfContains, hx]
    · simp [removeIfContains, hx, hn]

theorem foldl_removeIfContains (l : List String) (u : String → Bool) (n : String) :
    l.foldl removeIfContains u n = (u n && !(l.contains n)) := by
  induction l generalizing u with
  | nil => simp
  | cons ex rest ih =>
    rw [List.foldl_cons, ih, removeIfContains_apply, List.contains_cons]
    by_cases hn : n = ex
    · subst hn
      simp
    · simp [hn, Bool.and_assoc]

theorem resolve_tbd_apply (u : String → Bool) (tbd : TbdDylib) (n : String) :
    resolve_tbd u tbd n = (u n && !(tbd.exports.contains n)) :=
  foldl_removeIfContains tbd.exports u n

/-- Claim C4 counterexample: a name that appears only among a
descriptor's weak exports is not removed from the undefined set —
`"_w"` is in the descriptor's `weak_exports`, yet after the resolver
pass it is still undefined, where the claim says a name appearing in
exports or weak-exports is removed. -/
theorem weak_exports_not_consulted :
    (TbdDylib.mk "libw" [] [] ["_w"]).weak_exports.contains "_w" = true
    ∧ resolve_dylibs (fun n => n == "_w") [TbdDylib.mk "libw" [] [] ["_w"]] "_w" = true := by
  constructor
  · rfl
  · rfl

/-- Claim C4 (amended): during dylib export resolution a name is
removed from the undefined set iff it appears in some descriptor's
`exports` list — `weak_exports` is never consulted — and the pass is
idempotent and independent of the order in which descriptors are
checked, since its result is this pointwise characterization. -/
theorem resolve_dylibs_exports_only (undef : String → Bool) (tbds : List TbdDylib) (n : String) :
    resolve_dylibs undef tbds n
      = (undef n && !(tbds.any (fun t => t.exports.contains n)))
    ∧ resolve_dylibs (resolve_dylibs undef tbds) tbds n = resolve_dylibs undef tbds n := by
  have key : ∀ (u : String → Bool),
      resolve_dylibs u tbds n = (u n && !(tbds.any (fun t => t.exports.contains n))) := by
    intro u
    induction tbds generalizing u with
    | nil => simp [resolve_dylibs]
    | cons t rest ih =>
      have : resolve_dylibs u (t :: rest) = resolve_dylibs (resolve_tbd u t) rest := rfl
      rw [this, ih, resolve_tbd_apply, List.any_cons]
      cases u n <;> cases ht : t.exports.contains n <;> simp [ht]
  refine ⟨key undef, ?_⟩
  rw [key (resolve_dylibs undef tbds), key undef]
  cases undef n <;> cases h : tbds.any (fun t => t.exports.contains n) <;> simp [h]

/-- Embeds the `u32` bitwise AND used by the fat-slice test in
`main.rs` (`arch.cputype() & CPU_TYPE_ARM64`), computed bit by bit
over the 32-bit width. -/
def bitAndAux : Nat → Nat → Nat → Nat
  | 0, _, _ => 0
  | fuel + 1, a, b =>
    (if a % 2 = 1 ∧ b % 2 = 1 then 1 else 0) + 2 * bitAndAux fuel (a / 2) (b / 2)

/-- The 32-bit AND of two cputype words. -/
def u32_and (a b : Nat) : Nat :=
  bitAndAux 32 (a % 2 ^ 32) (b % 2 ^ 32)

/-- goblin's `CPU_TYPE_ARM64 = CPU_TYPE_ARM | CPU_ARCH_ABI64`. -/
def CPU_TYPE_ARM64 : Nat := 0x0100000c

/-- Embeds the fat-container slice selection in `main.rs`
(lines 168–175): the position of the first slice whose declared CPU
type has a nonzero bitwise AND with `CPU_TYPE_ARM64`; the source
`unwrap`s the position, so `none` models the panic taken when no
slice passes the mask test. -/
def select_fat_slice (cputypes : List Nat) : Option Nat :=
  cputypes.findIdx? (fun c => u32_and c CPU_TYPE_ARM64 != 0)

/-- Claim C5 (code bug): the slice test is a bitmask intersection, not
an equality on the declared CPU type, so a fat container whose first
slice is x86_64 (`0x01000007`) has that slice selected even though an
ARM64 slice exists later — `0x01000007 & 0x0100000C = 0x01000004 ≠ 0`
— where the claim says exactly the ARM64-matching slice is selected;
and when no slice passes the mask test (e.g. a single PowerPC
`0x12` slice) the code panics on `unwrap` (modelled as `none`) rather
than failing with an `ArchitectureMismatch` error, which does not
exist in the source. -/
theorem fat_slice_mask_bug :
    select_fat_slice [0x01000007, 0x0100000c] = some 0
    ∧ (0x01000007 : Nat) ≠ CPU_TYPE_ARM64
    ∧ select_fat_slice [0x12] = none := by
  refine ⟨by decide, by decide, by decide⟩

/-- Embeds a Rust `PathBuf` structurally: whether the path is
absolute (its first component is the root separator) and its named
components in order. -/
structure RustPath where
  absolute : Bool
  components : List String
deriving DecidableEq

/-- Embeds Rust `Path::join(p)` for the cases arising in `main.rs`:
joining an absolute path replaces the receiver, joining a relative
path appends its components. -/
def pathJoin (root p : RustPath) : RustPath :=
  if p.absolute then p else ⟨root.absolute, root.components ++ p.components⟩

/-- Embeds `path.strip_prefix("/")` as used at `main.rs:122`:
dropping the leading root separator leaves the same components,
relative. -/
def stripLeadingRoot (p : RustPath) : RustPath :=
  ⟨false, p.components⟩

/-- Embeds the search-path rewrite closure in `main.rs` (lines
117–128), applied to each search path when a sysroot is configured:
an absolute path has its leading separator stripped, and then the
(possibly stripped) path is joined under the sysroot — in both
branches. -/
def rewrite_search_path (root p : RustPath) : RustPath :=
  let non_abs_path := if p.absolute then stripLeadingRoot p else p
  pathJoin root non_abs_path

/-- Embeds the surrounding `if let Some(ref root) = args.sys_lib_root`
(`main.rs:117-131`): with a sysroot every search path is rewritten,
without one the list is used as-is. -/
def rewrite_search_paths (sys_lib_root : Option RustPath) (paths : List RustPath) :
    List RustPath :=
  match sys_lib_root with
  | some root => paths.map (rewrite_search_path root)
  | none => paths

/-- Claim C6 counterexample: with sysroot `/sdk`, the relative search
path `vendor/lib` is rewritten to `/sdk/vendor/lib` instead of being
left unchanged as the claim states. -/
theorem relative_path_rerooted :
    rewrite_search_paths (some ⟨true, ["sdk"]⟩) [⟨false, ["vendor", "lib"]⟩]
      = [⟨true, ["sdk", "vendor", "lib"]⟩]
    ∧ rewrite_search_paths (some ⟨true, ["sdk"]⟩) [⟨false, ["vendor", "lib"]⟩]
      ≠ [⟨false, ["vendor", "lib"]⟩] := by
  constructor
  · rfl
  · decide

/-- Claim C6 (amended): when a sysroot is configured every search path
— absolute ones with their leading separator stripped, but relative
ones as well — is joined under the sysroot, so every rewritten path is
the sysroot's components followed by the original path's components;
when no sysroot is configured every search path is unchanged. -/
theorem rewrite_search_paths_spec (root p : RustPath) (paths : List RustPath) :
    rewrite_search_paths (some root) paths
      = paths.map (fun q => ⟨root.absolute, root.components ++ q.components⟩)
    ∧ rewrite_search_path root p = ⟨root.absolute, root.components ++ p.components⟩
    ∧ rewrite_search_paths none paths = paths := by
  have happ : ∀ q : RustPath,
      rewrite_search_path root q = ⟨root.absolute, root.components ++ q.components⟩ := by
    intro q
    cases hq : q.absolute <;>
      simp [rewrite_search_path, stripLeadingRoot, pathJoin, hq]
  refine ⟨?_, happ p, rfl⟩
  simp only [rewrite_search_paths]
  exact List.map_congr_left (fun q _ => happ q)

/-- Embeds Rust `Path::set_extension` / `with_extension` for a
single-component file name: the extension — the portion of the name
after its last `.`, where a `.` at the start of the name does not
count — is replaced by `ext`; a name with no extension gets `.ext`
appended. The reversed character list is scanned up to the first `.`;
when the remainder is empty (no dot) or just the leading dot, the
extension is appended to the whole name, and otherwise everything
from the last dot on is replaced. -/
def rustSetExtension (file_name ext : String) : String :=
  if (file_name.data.reverse.dropWhile (fun c => c != '.')).length ≤ 1 then
    ⟨file_name.data ++ '.' :: ext.data⟩
  else
    ⟨((file_name.data.reverse.dropWhile (fun c => c != '.')).drop 1).reverse
      ++ '.' :: ext.data⟩

/-- The fixed extension priority of `discover_library_path`
(`main.rs:413`). -/
def extensions : List String := ["tbd", "dylib", "a"]

/-- One probed candidate of `discover_library_path` (`main.rs:420-422`):
`prefix.join(format!("lib{}", library_name)).with_extension(extension)`. -/
def candidate (dir : RustPath) (library_name ext : String) : RustPath :=
  ⟨dir.absolute, dir.components ++ [rustSetExtension ("lib" ++ library_name) ext]⟩

/-- Embeds `discover_library_path` (`main.rs:411-437`): directories
are the outer loop, extensions the inner loop; the first candidate the
filesystem predicate `fs` reports as existing is returned, and `none`
when no candidate exists. -/
def discover_library_path (fs : RustPath → Bool) (locations : List RustPath)
    (library_name : String) : Option RustPath :=
  locations.findSome? (fun dir =>
    extensions.findSome? (fun ext =>
      if fs (candidate dir library_name ext) then some (candidate dir library_name ext)
      else none))

theorem findSome_if_eq_find {α β : Type} (p : β → Bool) (k : α → β) (l : List α) :
    (l.findSome? fun a => if p (k a) then some (k a) else none) = (l.map k).find? p := by
  induction l with
  | nil => rfl
  | cons a as ih =>
    by_cases h : p (k a) = true
    · rw [List.findSome?_cons, List.map_cons, List.find?_cons_of_pos _ h]
      simp [h]
    · rw [List.findSome?_cons, List.map_cons, List.find?_cons_of_neg _ h]
      simp only [if_neg h]
      exact ih

theorem findSome_find_flatMap {α β : Type} (p : β → Bool) (g : α → List β) (l : List α) :
    (l.findSome? fun a => (g a).find? p) = (l.flatMap g).find? p := by
  induction l with
  | nil => rfl
  | cons a as ih =>
    rw [List.findSome?_cons, List.flatMap_cons, List.find?_append]
    cases h : (g a).find? p with
    | none =>
      rw [ih]
      simp [h]
    | some b => simp [h]

/-- Claim C7: `discover_library_path` probes directories as the outer
loop and the fixed extension priority `[tbd, dylib, a]` as the inner
loop, returning the first existing candidate of that directory-major
enumeration — so an existing candidate in an earlier directory wins
over any candidate in a later directory regardless of extension rank —
and returns `none` rather than an error when no candidate anywhere
exists. -/
theorem discover_library_path_order (fs : RustPath → Bool) (locations : List RustPath)
    (library_name : String) :
    discover_library_path fs locations library_name
      = (locations.flatMap (fun dir => extensions.map (candidate dir library_name))).find? fs
    ∧ (discover_library_path fs locations library_name = none ↔
        ∀ dir ∈ locations, ∀ ext ∈ extensions, fs (candidate dir library_name ext) = false) := by
  have hmain : discover_library_path fs locations library_name
      = (locations.flatMap (fun dir => extensions.map (candidate dir library_name))).find? fs := by
    unfold discover_library_path
    rw [← findSome_find_flatMap]
    have heq : (fun dir => extensions.findSome? (fun ext =>
          if fs (candidate dir library_name ext) then some (candidate dir library_name ext)
          else none))
        = fun dir => (extensions.map (candidate dir library_name)).find? fs :=
      funext fun dir => findSome_if_eq_find fs (candidate dir library_name) extensions
    rw [heq]
  refine ⟨hmain, ?_⟩
  rw [hmain, List.find?_eq_none]
  constructor
  · intro h dir hdir ext hext
    have : candidate dir library_name ext
        ∈ locations.flatMap (fun d => extensions.map (candidate d library_name)) := by
      rw [List.mem_flatMap]
      exact ⟨dir, hdir, List.mem_map_of_mem _ hext⟩
    simpa using h _ this
  · intro h c hc
    rw [List.mem_flatMap] at hc
    obtain ⟨dir, hdir, hcm⟩ := hc
    rw [List.mem_map] at hcm
    obtain ⟨ext, hext, rfl⟩ := hcm
    simp [h dir hdir ext hext]

theorem dropWhile_all_true {p : Char → Bool} (l₁ l₂ : List Char)
    (h : ∀ c ∈ l₁, p c = true) : (l₁ ++ l₂).dropWhile p = l₂.dropWhile p := by
  induction l₁ with
  | nil => rfl
  | cons a as ih =>
    rw [List.cons_append, List.dropWhile_cons, if_pos (h a (List.mem_cons_self a as))]
    exact ih (fun c hc => h c (List.mem_cons_of_mem a hc))

theorem data_append_dot (a b : String) :
    (a ++ "." ++ b).data = a.data ++ '.' :: b.data := by
  rw [show (a ++ "." ++ b).data = (a.data ++ ".".data) ++ b.data from rfl, List.append_assoc]
  rfl

/-- Claim C10: for a library name that itself contains a dot, the
probed candidate file name replaces the portion after the name's last
dot with the search extension rather than appending the extension —
for any dot-free `suffix`, the candidate file for name
`stem ++ "." ++ suffix` is `lib<stem>.<ext>`, because the candidate is
built with `with_extension` on `lib<name>`. -/
theorem with_extension_replaces_suffix (stem suffix ext : String)
    (h : ∀ c ∈ suffix.data, c ≠ '.') :
    rustSetExtension ("lib" ++ stem ++ "." ++ suffix) ext
      = "lib" ++ stem ++ "." ++ ext := by
  have hdata : ("lib" ++ stem ++ "." ++ suffix).data
      = ("lib" ++ stem).data ++ '.' :: suffix.data := data_append_dot _ _
  have hall : ∀ c ∈ suffix.data.reverse, (c != '.') = true := by
    intro c hc
    simpa [bne_iff_ne] using h c (List.mem_reverse.mp hc)
  have hrev : ("lib" ++ stem ++ "." ++ suffix).data.reverse
      = suffix.data.reverse ++ '.' :: ("lib" ++ stem).data.reverse := by
    rw [hdata, List.reverse_append, List.reverse_cons, List.append_assoc]
    rfl
  have hdw : ("lib" ++ stem ++ "." ++ suffix).data.reverse.dropWhile (fun c => c != '.')
      = '.' :: ("lib" ++ stem).data.reverse := by
    rw [hrev, dropWhile_all_true _ _ hall, List.dropWhile_cons]
    simp
  have hlib : ("lib" ++ stem).data = 'l' :: 'i' :: 'b' :: stem.data := rfl
  have hlen : ¬ (("lib" ++ stem ++ "." ++ suffix).data.reverse.dropWhile
      (fun c => c != '.')).length ≤ 1 := by
    rw [hdw, List.length_cons, List.length_reverse, hlib]
    simp
  apply String.ext
  unfold rustSetExtension
  rw [if_neg hlen]
  show ((("lib" ++ stem ++ "." ++ suffix).data.reverse.dropWhile
      (fun c => c != '.')).drop 1).reverse ++ '.' :: ext.data
    = ("lib" ++ stem ++ "." ++ ext).data
  rw [hdw, data_append_dot]
  show ("lib" ++ stem).data.reverse.reverse ++ '.' :: ext.data = _
  rw [List.reverse_reverse]

/-- Witness for C10 at stem `"foo"`, suffix `"bar"`, extension
`"tbd"`: probing library `"foo.bar"` tests `libfoo.tbd`. -/
theorem with_extension_replaces_suffix_witness :
    (∀ c ∈ ("bar" : String).data, c ≠ '.')
    ∧ rustSetExtension ("lib" ++ "foo" ++ "." ++ "bar") "tbd" = "lib" ++ "foo" ++ "." ++ "tbd" :=
  ⟨by decide, with_extension_replaces_suffix "foo" "bar" "tbd" (by decide)⟩

/-- Claim C8: the tbd architecture match predicate accepts a triple iff
it equals the architecture's canonical name (`"arm64"` for ARM64) or
starts with that name followed by `"-"`; in particular `"arm64"` and
`"arm64-apple-macos13"` match ARM64 and `"x86_64-apple-macos13"` does
not. -/
theorem match_arch_spec :
    (∀ triple : String, match_arch .ARM64 triple = true ↔
      (triple = "arm64" ∨ ∃ rest, triple.data = "arm64-".data ++ rest))
    ∧ match_arch .ARM64 "arm64" = true
    ∧ match_arch .ARM64 "arm64-apple-macos13" = true
    ∧ match_arch .ARM64 "x86_64-apple-macos13" = false := by
  refine ⟨fun triple => ?_, by decide, by decide, by decide⟩
  simp only [match_arch, Architecture.toString, rust_starts_with,
    Bool.or_eq_true, beq_iff_eq, isPrefixOf_iff_exists]
  constructor
  · rintro (h | ⟨t, ht⟩)
    · exact Or.inl h.symm
    · exact Or.inr ⟨t, by simpa using ht⟩
  · rintro (h | ⟨t, ht⟩)
    · exact Or.inl h.symm
    · exact Or.inr ⟨t, by simpa using ht⟩
